import Mathlib

/-
  Verification of the HD-Diagnostic-and-repair-tool scan engine against its
  specification.

  The backend under scrutiny (modules/scan.py, modules/websocket_handler.py,
  main.py) performs a surface scan of a block device: it reads the device one
  512-byte sector at a time, counts unreadable sectors, and broadcasts a
  progress message to every connected WebSocket client after each sector.
  The HTTP handler ScanHandler.post awaits the whole scan and then writes the
  scan result as its response.  The frontend (src/api/socket.js,
  src/api/api.js, src/pages/Dashboard.jsx) contains a WebSocket reconnect
  state machine and the startScan API call.

  Python computes the progress percentage as int((scanned / total_size) * 100),
  i.e. an IEEE-754 binary64 division, a binary64 multiplication by 100, and a
  truncation.  We model binary64 arithmetic exactly: a nonnegative double is
  a pair (mantissa, exponent) with value m * 2^e, and each operation rounds
  the exact rational result to 53 significant bits, round-to-nearest ties-to-
  even.  All quantities that arise stay far inside the normal range of
  binary64, so overflow and subnormals never come into play.
-/

/- ### Exact binary64 model (nonnegative values, normal range) -/

/-- Fuel-driven floor of log2; `natLog2Aux fuel n` is correct when `n ≤ fuel`. -/
def natLog2Aux : ℕ → ℕ → ℕ
  | 0, _ => 0
  | fuel+1, n => if n ≤ 1 then 0 else natLog2Aux fuel (n / 2) + 1

/-- `natLog2 n` is the floor of the base-2 logarithm of `n` (0 for `n = 0`). -/
def natLog2 (n : ℕ) : ℕ := natLog2Aux n n

/-- Floor of the base-2 logarithm of the positive rational `n / d`. -/
def ilog2 (n d : ℕ) : ℤ :=
  let a : ℤ := natLog2 n
  let b : ℤ := natLog2 d
  if d * 2 ^ (a - b).toNat ≤ n * 2 ^ (b - a).toNat then a - b else a - b - 1

/-- Round `N / D` to the nearest integer, ties to even (the IEEE default). -/
def rnteNat (N D : ℕ) : ℕ :=
  let q := N / D
  let r := N % D
  if 2 * r < D then q
  else if D < 2 * r then q + 1
  else if q % 2 = 0 then q else q + 1

/-- A nonnegative IEEE binary64 value: mantissa times 2 to the exponent. -/
structure Dbl where
  m : ℕ
  e : ℤ
  deriving DecidableEq

/-- The exact rational value of a `Dbl`. -/
def Dbl.toRat (x : Dbl) : ℚ := (x.m : ℚ) * (2 : ℚ) ^ x.e

/-- Binary64 division `a / b` of two naturals: the exact quotient is scaled so
that its 53-bit mantissa window is an integer range, then rounded to nearest,
ties to even.  Models Python float division of nonnegative ints. -/
def fpDiv (a b : ℕ) : Dbl :=
  let e : ℤ := ilog2 a b - 52
  ⟨rnteNat (a * 2 ^ (-e).toNat) (b * 2 ^ e.toNat), e⟩

/-- Binary64 multiplication of a `Dbl` by the (exactly representable) constant
100, rounding the 53-bit mantissa, ties to even.  Models Python `x * 100`. -/
def fpMul100 (x : Dbl) : Dbl :=
  let k : ℕ := natLog2 (100 * x.m) - 52
  ⟨rnteNat (100 * x.m) (2 ^ k), x.e + k⟩

/-- Truncation of a nonnegative `Dbl` to an integer: Python `int(x)`. -/
def fpToIntFloor (x : Dbl) : ℕ :=
  if 0 ≤ x.e then x.m * 2 ^ x.e.toNat else x.m / 2 ^ (-x.e).toNat

/-- Python `int((s / t) * 100)` on nonnegative integers `s`, `t`:
binary64 division, binary64 multiplication by 100, truncation. -/
def pyProgress (s t : ℕ) : ℕ := fpToIntFloor (fpMul100 (fpDiv s t))

/- ### Backend scan engine (modules/scan.py, modules/websocket_handler.py, main.py) -/

/-- The fixed `sector_size = 512` set at the top of scan_drive in modules/scan.py. -/
def sector_size : ℕ := 512

/-- A connected WebSocket client; `alive = false` means its write_message
raises (a dead/closed connection). -/
structure Client where
  alive : Bool
  deriving DecidableEq

/-- The JSON message built by send_progress_update in websocket_handler.py:
the keys event, drive, progress, bad_sectors. -/
structure Message where
  event : String
  drive : String
  progress : ℕ
  bad_sectors : ℕ
  deriving DecidableEq

/-- The broadcast loop of send_progress_update: for client in
connected_clients: client.write_message(message).  Returns how many clients
received the message and whether the loop finished without an exception; a
dead client raises, so clients after it in iteration order are never
reached. -/
def writeAll : List Client → ℕ × Bool
  | [] => (0, true)
  | c :: cs =>
    if c.alive then
      let rest := writeAll cs
      (rest.1 + 1, rest.2)
    else (0, false)

/-- send_progress_update(drive, progress, bad_sectors): builds the
scan_progress message and broadcasts it to the connected clients. -/
def send_progress_update (drive : String) (progress : ℕ) (bad_sectors : ℕ)
    (clients : List Client) : Message × ℕ × Bool :=
  (⟨"scan_progress", drive, progress, bad_sectors⟩, writeAll clients)

/-- The mutable state of scan_drive's while-loop, together with the trace of
fully broadcast messages and whether an exception escaped into the outer
try of scan_drive. -/
structure ScanState where
  scanned : ℕ
  bad_sectors : ℕ
  msgs : List Message
  aborted : Bool
  deriving DecidableEq

/-- One iteration of scan_drive's while scanned < total_size loop: seek and
read one sector (reads gives the outcome at that byte offset; a failed read
is caught by the inner try and counted in bad_sectors), advance scanned by
sector_size, compute progress = int((scanned / total_size) * 100) in
binary64, and broadcast it.  If the broadcast raises, the exception
propagates into scan_drive's outer try: the loop stops and the session is
marked aborted.  Once the loop condition fails the state never changes. -/
def scanStep (reads : ℕ → Bool) (clients : List Client) (drive : String) (total : ℕ)
    (st : ScanState) : ScanState :=
  if st.aborted then st
  else if st.scanned < total then
    let bad' := if reads st.scanned then st.bad_sectors else st.bad_sectors + 1
    let scanned' := st.scanned + sector_size
    let progress := pyProgress scanned' total
    let sent := send_progress_update drive progress bad' clients
    if sent.2.2 then ⟨scanned', bad', st.msgs ++ [sent.1], false⟩
    else ⟨scanned', bad', st.msgs, true⟩
  else st

/-- The loop state after k iterations, from the initial state
scanned = 0, bad_sectors = 0. -/
def scanRun (reads : ℕ → Bool) (clients : List Client) (drive : String) (total : ℕ) :
    ℕ → ScanState
  | 0 => ⟨0, 0, [], false⟩
  | k+1 => scanStep reads clients drive total (scanRun reads clients drive total k)

/-- Number of iterations of the while-loop: scanned grows by sector_size
from 0 until it reaches total, i.e. the ceiling of total / sector_size.
(The Python loop terminates because sector_size = 512 > 0.) -/
def numIters (total : ℕ) : ℕ := (total + sector_size - 1) / sector_size

/-- The dictionary scan_drive returns: success False when an exception
reached the outer try (device open failure, or a broadcast failure),
otherwise success True; bad_sectors and scanned are the loop's final
counters, msgs the broadcast trace. -/
structure ScanResult where
  success : Bool
  bad_sectors : ℕ
  scanned : ℕ
  msgs : List Message
  deriving DecidableEq

/-- scan_drive(drive) from modules/scan.py: open the device (openOk models
whether the open call succeeds), then run the sector loop to completion. -/
def scan_drive (reads : ℕ → Bool) (clients : List Client) (drive : String)
    (total : ℕ) (openOk : Bool) : ScanResult :=
  if openOk then
    let st := scanRun reads clients drive total (numIters total)
    ⟨!st.aborted, st.bad_sectors, st.scanned, st.msgs⟩
  else ⟨false, 0, 0, []⟩

/-- ScanHandler.post from main.py: result = await scan_drive(drive);
self.write(json.dumps(result)).  The HTTP response is produced only once
scan_drive has returned, and its body is scan_drive's result. -/
def ScanHandler_post (reads : ℕ → Bool) (clients : List Client) (openOk : Bool)
    (drive : String) (total : ℕ) : ScanResult :=
  scan_drive reads clients drive total openOk

/-- A sequence of POST /scan/{drive} requests: the backend keeps no registry
or per-drive state whatsoever, so each request independently runs a full
scan_drive on the named device. -/
def handleRequests (reads : ℕ → Bool) (clients : List Client) (openOk : Bool)
    (total : ℕ) (reqs : List String) : List ScanResult :=
  reqs.map (fun d => ScanHandler_post reads clients openOk d total)

/-- Every connected client is alive (each write_message succeeds). -/
def aliveAll (clients : List Client) : Prop := ∀ c ∈ clients, c.alive = true

/-- Number of failed sector reads among the first k loop iterations
(iteration j reads the sector at byte offset j * sector_size). -/
def badCount (reads : ℕ → Bool) (k : ℕ) : ℕ :=
  (List.range k).countP (fun j => !(reads (j * sector_size)))

/-- The broadcast trace the loop produces in its first k iterations when no
broadcast raises: iteration j publishes the progress after j+1 sectors and
the bad count so far. -/
def msgTrace (reads : ℕ → Bool) (drive : String) (total : ℕ) (k : ℕ) : List Message :=
  (List.range k).map (fun j =>
    ⟨"scan_progress", drive, pyProgress ((j + 1) * sector_size) total,
      badCount reads (j + 1)⟩)

/-- Read oracle of a healthy device: no sector fails. -/
def readsAllOk : ℕ → Bool := fun _ => true

/-- Read oracle of the 10-unit scenario: exactly the sectors at unit offsets
4 and 7 (byte offsets 4*512 and 7*512) fail to read. -/
def readsBad47 (off : ℕ) : Bool :=
  if off = 4 * sector_size ∨ off = 7 * sector_size then false else true

/- ### Frontend: reconnect state machine (src/api/socket.js) -/

/-- maxReconnectAttempts = 10 from connectWebSocket in src/api/socket.js. -/
def maxReconnectAttempts : ℕ := 10

/-- An event observed by the socket handlers: a successful open, or a close
with the given WebSocket close code (1000 is normal closure). -/
inductive WsEvent where
  | wsopen : WsEvent
  | wsclose : ℕ → WsEvent
  deriving DecidableEq

/-- The onopen/onclose handlers of connectWebSocket: the state is the
reconnectAttempts counter; the returned Bool says whether a reconnect was
scheduled (setTimeout(connect, 5000)).  onopen resets the counter to 0;
onclose increments it and schedules a reconnect only for a close code other
than 1000 while reconnectAttempts < maxReconnectAttempts. -/
def wsHandle : ℕ → WsEvent → ℕ × Bool
  | _, WsEvent.wsopen => (0, false)
  | n, WsEvent.wsclose code =>
    if code ≠ 1000 ∧ n < maxReconnectAttempts then (n + 1, true) else (n, false)

/-- Run the handlers over a sequence of socket events; returns the final
counter and how many reconnect attempts were scheduled in total. -/
def wsRun : ℕ → List WsEvent → ℕ × ℕ
  | n, [] => (n, 0)
  | n, e :: es =>
    let step := wsHandle n e
    let rest := wsRun step.1 es
    (rest.1, (if step.2 then 1 else 0) + rest.2)

/- ### Frontend: startScan API call (src/api/api.js) and Dashboard handler -/

/-- What startScan's awaited axios call produced: the response body on HTTP
success, or a transport/server error. -/
inductive ApiValue where
  | body : String → ApiValue
  | errObj : String → ApiValue
  deriving DecidableEq

/-- A settled JavaScript promise: fulfilled with a value, or rejected. -/
inductive Settled where
  | resolved : ApiValue → Settled
  | rejected : String → Settled
  deriving DecidableEq

/-- startScan from src/api/api.js: try: return (await axios.post(...)).data;
catch: return the object with error = "Scan initiation failed".  Both paths
return normally, so the promise always resolves. -/
def startScan (o : Except String String) : Settled :=
  match o with
  | Except.ok b => Settled.resolved (ApiValue.body b)
  | Except.error _ => Settled.resolved (ApiValue.errObj "Scan initiation failed")

/-- handleStartScan from src/pages/Dashboard.jsx: startScan(drive).then sets
scanStatuses[drive] to "Starting..."; the .catch branch only logs and leaves
the statuses unchanged. -/
def handleStartScan (o : Except String String) (statuses : String → String)
    (drive : String) : String → String :=
  match startScan o with
  | Settled.resolved _ => Function.update statuses drive "Starting..."
  | Settled.rejected _ => statuses

/- ### Lemmas about the binary64 model -/

theorem natLog2Aux_spec : ∀ (fuel n : ℕ), 1 ≤ n → n ≤ fuel →
    2 ^ natLog2Aux fuel n ≤ n ∧ n < 2 ^ (natLog2Aux fuel n + 1)
  | 0, _, h1, h2 => absurd (le_trans h1 h2) (by norm_num)
  | fuel+1, n, h1, h2 => by
    simp only [natLog2Aux]
    by_cases hn : n ≤ 1
    · have hn1 : n = 1 := le_antisymm hn h1
      subst hn1
      norm_num
    · push_neg at hn
      have hd1 : 1 ≤ n / 2 := by omega
      have hdf : n / 2 ≤ fuel := by omega
      have ih := natLog2Aux_spec fuel (n / 2) hd1 hdf
      rw [if_neg (by omega)]
      constructor
      · have : 2 ^ (natLog2Aux fuel (n / 2) + 1) = 2 * 2 ^ natLog2Aux fuel (n / 2) := by ring
        rw [this]
        omega
      · have : 2 ^ (natLog2Aux fuel (n / 2) + 1 + 1) = 2 * 2 ^ (natLog2Aux fuel (n / 2) + 1) := by
          ring
        omega

theorem natLog2_spec (n : ℕ) (h : 1 ≤ n) :
    2 ^ natLog2 n ≤ n ∧ n < 2 ^ (natLog2 n + 1) :=
  natLog2Aux_spec n n h le_rfl

theorem ilog2_zpow_le (n d : ℕ) (hn : 1 ≤ n) (hd : 1 ≤ d) :
    (2 : ℚ) ^ ilog2 n d ≤ (n : ℚ) / d := by
  obtain ⟨ha1, ha2⟩ := natLog2_spec n hn
  obtain ⟨hb1, hb2⟩ := natLog2_spec d hd
  have hd0 : (0 : ℚ) < d := by exact_mod_cast hd
  simp only [ilog2]
  split
  case isTrue h =>
    rcases le_total (natLog2 d) (natLog2 n) with hba | hab
    · have hpn : ((natLog2 n : ℤ) - natLog2 d).toNat = natLog2 n - natLog2 d := by omega
      have hqn : ((natLog2 d : ℤ) - natLog2 n).toNat = 0 := by omega
      rw [hpn, hqn] at h
      simp only [pow_zero, mul_one] at h
      have hz : ((natLog2 n : ℤ) - natLog2 d) = ((natLog2 n - natLog2 d : ℕ) : ℤ) := by omega
      rw [hz, zpow_natCast]
      rw [le_div_iff₀ hd0]
      calc (2 : ℚ) ^ (natLog2 n - natLog2 d) * d
          = (d * 2 ^ (natLog2 n - natLog2 d) : ℕ) := by push_cast; ring
        _ ≤ (n : ℚ) := by exact_mod_cast h
    · have hpn : ((natLog2 n : ℤ) - natLog2 d).toNat = 0 := by omega
      have hqn : ((natLog2 d : ℤ) - natLog2 n).toNat = natLog2 d - natLog2 n := by omega
      rw [hpn, hqn] at h
      simp only [pow_zero, mul_one] at h
      have hz : ((natLog2 n : ℤ) - natLog2 d) = -((natLog2 d - natLog2 n : ℕ) : ℤ) := by omega
      rw [hz, zpow_neg, zpow_natCast, inv_eq_one_div,
        div_le_div_iff₀ (by positivity) hd0, one_mul]
      calc (d : ℚ) ≤ (n * 2 ^ (natLog2 d - natLog2 n) : ℕ) := by exact_mod_cast h
        _ = (n : ℚ) * 2 ^ (natLog2 d - natLog2 n) := by push_cast; ring
  case isFalse h =>
    have hn0 : (0 : ℚ) < n := by exact_mod_cast hn
    have hz : (natLog2 n : ℤ) - natLog2 d - 1 = (natLog2 n : ℤ) - ((natLog2 d : ℤ) + 1) := by ring
    rw [hz, zpow_sub₀ (by norm_num)]
    have e1 : (2 : ℚ) ^ (natLog2 n : ℤ) ≤ (n : ℚ) := by
      rw [zpow_natCast]
      exact_mod_cast ha1
    have e2 : (0 : ℚ) < (2 : ℚ) ^ ((natLog2 d : ℤ) + 1) := by positivity
    have e3 : (d : ℚ) ≤ (2 : ℚ) ^ ((natLog2 d : ℤ) + 1) := by
      have hcast : ((natLog2 d : ℤ) + 1) = ((natLog2 d + 1 : ℕ) : ℤ) := by omega
      rw [hcast, zpow_natCast]
      exact_mod_cast le_of_lt hb2
    have goal : (2 : ℚ) ^ (natLog2 n : ℤ) / 2 ^ ((natLog2 d : ℤ) + 1) ≤ (n : ℚ) / d := by
      gcongr
    exact goal

theorem rnteNat_le (N D : ℕ) (hD : 0 < D) : (rnteNat N D : ℚ) ≤ (N : ℚ) / D + 1 / 2 := by
  have hD0 : (0 : ℚ) < D := by exact_mod_cast hD
  have hmod := Nat.div_add_mod N D
  have hr : N % D < D := Nat.mod_lt _ hD
  have hN : (N : ℚ) = D * (N / D : ℕ) + (N % D : ℕ) := by exact_mod_cast hmod.symm
  have hq : (N : ℚ) / D = (N / D : ℕ) + (N % D : ℕ) / D := by
    rw [hN]
    field_simp
    ring
  have hrQ : ((N % D : ℕ) : ℚ) < D := by exact_mod_cast hr
  have hr0 : (0 : ℚ) ≤ ((N % D : ℕ) : ℚ) := by positivity
  simp only [rnteNat]
  split_ifs with h1 h2 h3
  · rw [hq]
    have : (0 : ℚ) ≤ ((N % D : ℕ) : ℚ) / D := by positivity
    linarith
  · have h2Q : (D : ℚ) < 2 * (N % D : ℕ) := by exact_mod_cast h2
    have hhalf : (1 : ℚ) / 2 ≤ ((N % D : ℕ) : ℚ) / D := by
      rw [div_le_div_iff₀ (by norm_num) hD0]
      linarith
    push_cast
    rw [hq]
    linarith
  · rw [hq]
    have : (0 : ℚ) ≤ ((N % D : ℕ) : ℚ) / D := by positivity
    linarith
  · have htie : 2 * (N % D) = D := by omega
    have htie2 : (2 : ℚ) * ((N % D : ℕ) : ℚ) = D := by exact_mod_cast htie
    have hDne : (D : ℚ) ≠ 0 := ne_of_gt hD0
    have htieQ : ((N % D : ℕ) : ℚ) / D = 1 / 2 := by
      field_simp
      linarith
    push_cast
    rw [hq, htieQ]
    linarith

theorem rnteNat_exact (N D : ℕ) (hD : 0 < D) (h : D ∣ N) : rnteNat N D = N / D := by
  have hr : N % D = 0 := by
    obtain ⟨c, rfl⟩ := h
    exact Nat.mul_mod_right D c
  simp [rnteNat, hr, hD]

theorem Dbl.toRat_nonneg (x : Dbl) : 0 ≤ x.toRat := by
  unfold Dbl.toRat
  positivity

theorem fpDiv_toRat_le (a b : ℕ) (ha : 1 ≤ a) (hb : 1 ≤ b) :
    (fpDiv a b).toRat ≤ ((a : ℚ) / b) * (1 + 1 / 2 ^ 53) := by
  have hb0 : (0 : ℚ) < b := by exact_mod_cast hb
  have hab0 : (0 : ℚ) < (a : ℚ) / b := by positivity
  set e : ℤ := ilog2 a b - 52 with he
  set N : ℕ := a * 2 ^ (-e).toNat with hNdef
  set D : ℕ := b * 2 ^ e.toNat with hDdef
  have hD : 0 < D := by positivity
  have hD0 : (0 : ℚ) < D := by exact_mod_cast hD
  -- the scaled fraction N / D is exactly (a / b) * 2 ^ (-e)
  have hscale : (N : ℚ) / D = ((a : ℚ) / b) * (2 : ℚ) ^ (-e) := by
    have hpq : (((-e).toNat : ℤ)) - ((e.toNat : ℤ)) = -e := by omega
    have hexp : (2 : ℚ) ^ ((-e).toNat : ℕ) / (2 : ℚ) ^ (e.toNat : ℕ) = (2 : ℚ) ^ (-e) := by
      rw [← zpow_natCast (2 : ℚ) (-e).toNat, ← zpow_natCast (2 : ℚ) e.toNat,
        ← zpow_sub₀ (by norm_num : (2 : ℚ) ≠ 0), hpq]
    calc (N : ℚ) / D
        = ((a : ℚ) * 2 ^ ((-e).toNat : ℕ)) / ((b : ℚ) * 2 ^ (e.toNat : ℕ)) := by
          rw [hNdef, hDdef]
          push_cast
          ring
      _ = ((a : ℚ) / b) * ((2 : ℚ) ^ ((-e).toNat : ℕ) / (2 : ℚ) ^ (e.toNat : ℕ)) :=
          mul_div_mul_comm _ _ _ _
      _ = ((a : ℚ) / b) * (2 : ℚ) ^ (-e) := by rw [hexp]
  have hround : ((rnteNat N D : ℕ) : ℚ) ≤ (N : ℚ) / D + 1 / 2 := rnteNat_le N D hD
  have htoRat : (fpDiv a b).toRat = ((rnteNat N D : ℕ) : ℚ) * (2 : ℚ) ^ e := rfl
  have h2e : (0 : ℚ) < (2 : ℚ) ^ e := by positivity
  have hmul : (fpDiv a b).toRat ≤ ((N : ℚ) / D + 1 / 2) * (2 : ℚ) ^ e := by
    rw [htoRat]
    exact mul_le_mul_of_nonneg_right hround h2e.le
  have hinv : (2 : ℚ) ^ (-e) * (2 : ℚ) ^ e = 1 := by
    rw [← zpow_add₀ (by norm_num : (2 : ℚ) ≠ 0)]
    norm_num
  have hlog : (2 : ℚ) ^ ilog2 a b ≤ (a : ℚ) / b := ilog2_zpow_le a b ha hb
  have hsplit : (2 : ℚ) ^ e = (2 : ℚ) ^ ilog2 a b * (2 : ℚ) ^ (-52 : ℤ) := by
    rw [← zpow_add₀ (by norm_num : (2 : ℚ) ≠ 0)]
    congr 1
  have hebound : (2 : ℚ) ^ e ≤ ((a : ℚ) / b) * (2 : ℚ) ^ (-52 : ℤ) := by
    rw [hsplit]
    exact mul_le_mul_of_nonneg_right hlog (by positivity)
  calc (fpDiv a b).toRat
      ≤ ((N : ℚ) / D + 1 / 2) * (2 : ℚ) ^ e := hmul
    _ = ((a : ℚ) / b) * ((2 : ℚ) ^ (-e) * (2 : ℚ) ^ e) + (2 : ℚ) ^ e / 2 := by
        rw [hscale]
        ring
    _ = ((a : ℚ) / b) + (2 : ℚ) ^ e / 2 := by rw [hinv]; ring
    _ ≤ ((a : ℚ) / b) + ((a : ℚ) / b) * (2 : ℚ) ^ (-52 : ℤ) / 2 := by
        linarith [hebound]
    _ = ((a : ℚ) / b) * (1 + 1 / 2 ^ 53) := by
        have h52 : (2 : ℚ) ^ (-52 : ℤ) = 1 / 2 ^ 52 := by norm_num
        rw [h52]
        ring

theorem fpMul100_toRat_le (x : Dbl) :
    (fpMul100 x).toRat ≤ 100 * x.toRat * (1 + 1 / 2 ^ 53) := by
  rcases Nat.eq_zero_or_pos x.m with hm | hm
  · have h0 : (fpMul100 x).m = 0 := by
      simp [fpMul100, hm, rnteNat, natLog2, natLog2Aux]
    have hx : x.toRat = 0 := by simp [Dbl.toRat, hm]
    have hgoal : (fpMul100 x).toRat = 0 := by simp [Dbl.toRat, h0]
    rw [hgoal, hx]
    norm_num
  · set k : ℕ := natLog2 (100 * x.m) - 52 with hkdef
    have hv1 : 1 ≤ 100 * x.m := by omega
    have hfm : fpMul100 x = ⟨rnteNat (100 * x.m) (2 ^ k), x.e + k⟩ := rfl
    by_cases h52 : natLog2 (100 * x.m) ≤ 52
    · have hk0 : k = 0 := by omega
      have hexact : (fpMul100 x).toRat = 100 * x.toRat := by
        rw [hfm]
        simp only [Dbl.toRat, hk0, pow_zero]
        rw [rnteNat_exact _ 1 one_pos (one_dvd _), Nat.div_one]
        push_cast
        ring_nf
      rw [hexact]
      have hnn : (0 : ℚ) ≤ 100 * x.toRat := by
        have := Dbl.toRat_nonneg x
        positivity
      nlinarith
    · push_neg at h52
      have hk52 : k + 52 = natLog2 (100 * x.m) := by omega
      have hD : 0 < 2 ^ k := Nat.pos_pow_of_pos k (by norm_num)
      have hround := rnteNat_le (100 * x.m) (2 ^ k) hD
      have hlow : 2 ^ (k + 52) ≤ 100 * x.m := by
        rw [hk52]
        exact (natLog2_spec (100 * x.m) hv1).1
      have hlowQ : ((2 : ℚ) ^ (k + 52)) ≤ ((100 * x.m : ℕ) : ℚ) := by exact_mod_cast hlow
      have h2kQ : (0 : ℚ) < 2 ^ k := by positivity
      have hzsplit : (2 : ℚ) ^ (x.e + (k : ℤ)) = (2 : ℚ) ^ x.e * (2 : ℚ) ^ (k : ℕ) := by
        rw [zpow_add₀ (by norm_num : (2 : ℚ) ≠ 0), zpow_natCast]
      have h2e : (0 : ℚ) < (2 : ℚ) ^ x.e := by positivity
      have hstep1 : (fpMul100 x).toRat
          ≤ (((100 * x.m : ℕ) : ℚ) / 2 ^ k + 1 / 2) * ((2 : ℚ) ^ x.e * (2 : ℚ) ^ (k : ℕ)) := by
        rw [hfm]
        show ((rnteNat (100 * x.m) (2 ^ k) : ℕ) : ℚ) * (2 : ℚ) ^ (x.e + (k : ℤ)) ≤ _
        rw [hzsplit]
        apply mul_le_mul_of_nonneg_right _ (by positivity)
        calc ((rnteNat (100 * x.m) (2 ^ k) : ℕ) : ℚ)
            ≤ ((100 * x.m : ℕ) : ℚ) / ((2 ^ k : ℕ) : ℚ) + 1 / 2 := hround
          _ = ((100 * x.m : ℕ) : ℚ) / 2 ^ k + 1 / 2 := by push_cast; ring
      have hstep2 : (((100 * x.m : ℕ) : ℚ) / 2 ^ k + 1 / 2) * ((2 : ℚ) ^ x.e * (2 : ℚ) ^ (k : ℕ))
          = ((100 * x.m : ℕ) : ℚ) * (2 : ℚ) ^ x.e
            + (2 : ℚ) ^ (k : ℕ) * (2 : ℚ) ^ x.e / 2 := by
        field_simp
        ring
      have hstep3 : (2 : ℚ) ^ (k : ℕ) * (2 : ℚ) ^ x.e / 2
          ≤ ((100 * x.m : ℕ) : ℚ) * (2 : ℚ) ^ x.e / 2 ^ 53 := by
        have hmul := mul_le_mul_of_nonneg_right hlowQ
          (le_of_lt (show (0 : ℚ) < (2 : ℚ) ^ x.e / 2 ^ 53 by positivity))
        calc (2 : ℚ) ^ (k : ℕ) * (2 : ℚ) ^ x.e / 2
            = (2 : ℚ) ^ (k + 52) * ((2 : ℚ) ^ x.e / 2 ^ 53) := by
              rw [pow_add]
              ring
          _ ≤ ((100 * x.m : ℕ) : ℚ) * ((2 : ℚ) ^ x.e / 2 ^ 53) := hmul
          _ = ((100 * x.m : ℕ) : ℚ) * (2 : ℚ) ^ x.e / 2 ^ 53 := by ring
      have hfinal : ((100 * x.m : ℕ) : ℚ) * (2 : ℚ) ^ x.e = 100 * x.toRat := by
        unfold Dbl.toRat
        push_cast
        ring
      calc (fpMul100 x).toRat
          ≤ ((100 * x.m : ℕ) : ℚ) * (2 : ℚ) ^ x.e
            + (2 : ℚ) ^ (k : ℕ) * (2 : ℚ) ^ x.e / 2 := by rw [← hstep2]; exact hstep1
        _ ≤ ((100 * x.m : ℕ) : ℚ) * (2 : ℚ) ^ x.e
            + ((100 * x.m : ℕ) : ℚ) * (2 : ℚ) ^ x.e / 2 ^ 53 := by linarith [hstep3]
        _ = 100 * x.toRat * (1 + 1 / 2 ^ 53) := by rw [hfinal]; ring

theorem fpToIntFloor_le (x : Dbl) : ((fpToIntFloor x : ℕ) : ℚ) ≤ x.toRat := by
  unfold fpToIntFloor Dbl.toRat
  split_ifs with h
  · have he : (x.e.toNat : ℤ) = x.e := Int.toNat_of_nonneg h
    have : ((x.m * 2 ^ x.e.toNat : ℕ) : ℚ) = (x.m : ℚ) * (2 : ℚ) ^ x.e := by
      push_cast
      rw [← zpow_natCast (2 : ℚ) x.e.toNat, he]
    exact le_of_eq this
  · push_neg at h
    have hp : (((-x.e).toNat : ℕ) : ℤ) = -x.e := Int.toNat_of_nonneg (by omega)
    calc ((x.m / 2 ^ (-x.e).toNat : ℕ) : ℚ)
        ≤ (x.m : ℚ) / ((2 ^ (-x.e).toNat : ℕ) : ℚ) := Nat.cast_div_le
      _ = (x.m : ℚ) * (2 : ℚ) ^ x.e := by
          rw [div_eq_mul_inv]
          congr 1
          push_cast
          rw [← zpow_natCast (2 : ℚ) (-x.e).toNat, hp, ← zpow_neg, neg_neg]

theorem pyProgress_le_100 (s t : ℕ) (hs : 1 ≤ s) (hst : s ≤ t) : pyProgress s t ≤ 100 := by
  have ht : 1 ≤ t := le_trans hs hst
  have ht0 : (0 : ℚ) < t := by exact_mod_cast ht
  have hdiv1 : ((s : ℚ) / t) ≤ 1 := by
    rw [div_le_one ht0]
    exact_mod_cast hst
  have h1 := fpDiv_toRat_le s t hs ht
  have h1' : (fpDiv s t).toRat ≤ 1 * (1 + 1 / 2 ^ 53) :=
    le_trans h1 (mul_le_mul_of_nonneg_right hdiv1 (by norm_num))
  have h2 := fpMul100_toRat_le (fpDiv s t)
  have h0 := Dbl.toRat_nonneg (fpDiv s t)
  have h3 : (fpMul100 (fpDiv s t)).toRat ≤ 100 * (1 * (1 + 1 / 2 ^ 53)) * (1 + 1 / 2 ^ 53) := by
    calc (fpMul100 (fpDiv s t)).toRat
        ≤ 100 * (fpDiv s t).toRat * (1 + 1 / 2 ^ 53) := h2
      _ ≤ 100 * (1 * (1 + 1 / 2 ^ 53)) * (1 + 1 / 2 ^ 53) := by
          apply mul_le_mul_of_nonneg_right _ (by norm_num)
          exact mul_le_mul_of_nonneg_left h1' (by norm_num)
  have h4 := fpToIntFloor_le (fpMul100 (fpDiv s t))
  have h5 : ((pyProgress s t : ℕ) : ℚ) < 101 := by
    unfold pyProgress
    calc ((fpToIntFloor (fpMul100 (fpDiv s t)) : ℕ) : ℚ)
        ≤ (fpMul100 (fpDiv s t)).toRat := h4
      _ ≤ 100 * (1 * (1 + 1 / 2 ^ 53)) * (1 + 1 / 2 ^ 53) := h3
      _ < 101 := by norm_num
  have h6 : pyProgress s t < 101 := by exact_mod_cast h5
  omega

theorem fpDiv_self (t : ℕ) (ht : 0 < t) : fpDiv t t = ⟨2 ^ 52, -52⟩ := by
  have hL : ilog2 t t = 0 := by simp [ilog2]
  have he : ilog2 t t - 52 = (-52 : ℤ) := by rw [hL]; decide
  have h1 : (-(ilog2 t t - 52)).toNat = 52 := by rw [hL]; decide
  have h2 : (ilog2 t t - 52).toNat = 0 := by rw [hL]; decide
  simp only [fpDiv]
  rw [h1, h2, he, pow_zero, mul_one,
    rnteNat_exact (t * 2 ^ 52) t ht ⟨2 ^ 52, rfl⟩, Nat.mul_div_cancel_left _ ht]

theorem pyProgress_self (t : ℕ) (ht : 0 < t) : pyProgress t t = 100 := by
  unfold pyProgress
  rw [fpDiv_self t ht]
  decide

/- ### Lemmas about the scan loop -/

theorem writeAll_alive (clients : List Client) (halive : aliveAll clients) :
    writeAll clients = (clients.length, true) := by
  induction clients with
  | nil => rfl
  | cons c cs ih =>
    have hc : c.alive = true := halive c (List.mem_cons_self c cs)
    have hcs : aliveAll cs := fun x hx => halive x (List.mem_cons_of_mem c hx)
    simp [writeAll, hc, ih hcs]

theorem writeAll_dead (pre post : List Client) (c : Client)
    (hpre : aliveAll pre) (hc : c.alive = false) :
    writeAll (pre ++ c :: post) = (pre.length, false) := by
  induction pre with
  | nil => simp [writeAll, hc]
  | cons p ps ih =>
    have hp : p.alive = true := hpre p (List.mem_cons_self p ps)
    have hps : aliveAll ps := fun x hx => hpre x (List.mem_cons_of_mem p hx)
    simp [writeAll, hp, ih hps]

theorem lt_numIters (k total : ℕ) : k < numIters total ↔ k * sector_size < total := by
  unfold numIters sector_size
  omega

theorem total_le_numIters_mul (total : ℕ) : total ≤ numIters total * sector_size := by
  unfold numIters sector_size
  omega

theorem numIters_mul_of_dvd (total : ℕ) (h : sector_size ∣ total) :
    numIters total * sector_size = total := by
  obtain ⟨v, rfl⟩ := h
  unfold numIters sector_size
  omega

theorem badCount_succ (reads : ℕ → Bool) (k : ℕ) :
    badCount reads (k + 1)
      = badCount reads k + (if reads (k * sector_size) then 0 else 1) := by
  unfold badCount
  rw [List.range_succ, List.countP_append]
  cases h : reads (k * sector_size) <;> simp [h, List.countP_cons]

theorem msgTrace_succ (reads : ℕ → Bool) (drive : String) (total k : ℕ) :
    msgTrace reads drive total (k + 1)
      = msgTrace reads drive total k
        ++ [⟨"scan_progress", drive, pyProgress ((k + 1) * sector_size) total,
              badCount reads (k + 1)⟩] := by
  unfold msgTrace
  rw [List.range_succ, List.map_append]
  rfl

theorem scanStep_go (reads : ℕ → Bool) (clients : List Client) (drive : String)
    (total s b : ℕ) (msgs : List Message)
    (halive : aliveAll clients) (h : s < total) :
    scanStep reads clients drive total ⟨s, b, msgs, false⟩ =
      ⟨s + sector_size, (if reads s then b else b + 1),
        msgs ++ [⟨"scan_progress", drive, pyProgress (s + sector_size) total,
          (if reads s then b else b + 1)⟩], false⟩ := by
  have hw := writeAll_alive clients halive
  simp [scanStep, send_progress_update, hw, h]

theorem scanStep_publish_raises (reads : ℕ → Bool) (clients : List Client) (drive : String)
    (total s b : ℕ) (msgs : List Message)
    (hdead : (writeAll clients).2 = false) (h : s < total) :
    scanStep reads clients drive total ⟨s, b, msgs, false⟩ =
      ⟨s + sector_size, (if reads s then b else b + 1), msgs, true⟩ := by
  simp [scanStep, send_progress_update, hdead, h]

theorem scanStep_done (reads : ℕ → Bool) (clients : List Client) (drive : String)
    (total s b : ℕ) (msgs : List Message) (h : ¬ s < total) :
    scanStep reads clients drive total ⟨s, b, msgs, false⟩ = ⟨s, b, msgs, false⟩ := by
  simp [scanStep, h]

theorem scanStep_frozen (reads : ℕ → Bool) (clients : List Client) (drive : String)
    (total : ℕ) (st : ScanState) (h : st.aborted = true) :
    scanStep reads clients drive total st = st := by
  simp [scanStep, h]

theorem scanRun_char (reads : ℕ → Bool) (clients : List Client) (drive : String)
    (total : ℕ) (halive : aliveAll clients) : ∀ k : ℕ,
    scanRun reads clients drive total k =
      ⟨min k (numIters total) * sector_size, badCount reads (min k (numIters total)),
        msgTrace reads drive total (min k (numIters total)), false⟩
  | 0 => by simp [scanRun, badCount, msgTrace]
  | k+1 => by
    have ih := scanRun_char reads clients drive total halive k
    show scanStep reads clients drive total (scanRun reads clients drive total k) = _
    rw [ih]
    by_cases hk : k < numIters total
    · have hmin : min k (numIters total) = k := by omega
      have hmin1 : min (k + 1) (numIters total) = k + 1 := by omega
      have hlt : k * sector_size < total := (lt_numIters k total).mp hk
      rw [hmin, hmin1, scanStep_go reads clients drive total _ _ _ halive hlt]
      rw [msgTrace_succ, badCount_succ]
      have harith : k * sector_size + sector_size = (k + 1) * sector_size := by ring
      cases hgood : reads (k * sector_size) <;>
        simp [harith, hgood]
    · have hmin : min k (numIters total) = numIters total := by omega
      have hmin1 : min (k + 1) (numIters total) = numIters total := by omega
      have hge : ¬ numIters total * sector_size < total := by
        have := total_le_numIters_mul total
        omega
      rw [hmin, hmin1, scanStep_done reads clients drive total _ _ _ hge]

theorem scan_drive_alive (reads : ℕ → Bool) (clients : List Client) (drive : String)
    (total : ℕ) (halive : aliveAll clients) :
    scan_drive reads clients drive total true =
      ⟨true, badCount reads (numIters total), numIters total * sector_size,
        msgTrace reads drive total (numIters total)⟩ := by
  unfold scan_drive
  rw [scanRun_char reads clients drive total halive (numIters total)]
  simp [min_self]

theorem scanRun_frozen_from (reads : ℕ → Bool) (clients : List Client) (drive : String)
    (total k : ℕ) (h : (scanRun reads clients drive total k).aborted = true) :
    ∀ j, scanRun reads clients drive total (k + j) = scanRun reads clients drive total k
  | 0 => rfl
  | j+1 => by
    have ih := scanRun_frozen_from reads clients drive total k h j
    show scanStep reads clients drive total (scanRun reads clients drive total (k + j)) = _
    rw [ih, scanStep_frozen reads clients drive total _ h]

theorem scan_drive_dead_client (reads : ℕ → Bool) (pre post : List Client) (c : Client)
    (drive : String) (total : ℕ) (hpre : aliveAll pre) (hc : c.alive = false)
    (htot : 0 < total) :
    (scan_drive reads (pre ++ c :: post) drive total true).success = false ∧
    (scan_drive reads (pre ++ c :: post) drive total true).msgs = [] := by
  have hdead : (writeAll (pre ++ c :: post)).2 = false := by
    rw [writeAll_dead pre post c hpre hc]
  have h1 : scanRun reads (pre ++ c :: post) drive total 1 =
      ⟨sector_size, (if reads 0 then 0 else 0 + 1), [], true⟩ := by
    show scanStep reads (pre ++ c :: post) drive total ⟨0, 0, [], false⟩ = _
    rw [scanStep_publish_raises reads (pre ++ c :: post) drive total 0 0 [] hdead htot]
    simp
  have hn : 1 ≤ numIters total := by
    have := (lt_numIters 0 total).mpr (by omega)
    omega
  have habort : (scanRun reads (pre ++ c :: post) drive total 1).aborted = true := by
    rw [h1]
  have hfreeze := scanRun_frozen_from reads (pre ++ c :: post) drive total 1 habort
    (numIters total - 1)
  have hrw : 1 + (numIters total - 1) = numIters total := by omega
  rw [hrw] at hfreeze
  unfold scan_drive
  rw [if_pos rfl, hfreeze, h1]
  constructor <;> rfl

theorem scanStep_cases (reads : ℕ → Bool) (clients : List Client) (drive : String)
    (total : ℕ) (st : ScanState) :
    scanStep reads clients drive total st = st
    ∨ (st.scanned < total
        ∧ (scanStep reads clients drive total st).scanned = st.scanned + sector_size
        ∧ ((scanStep reads clients drive total st).bad_sectors = st.bad_sectors
            ∨ (scanStep reads clients drive total st).bad_sectors = st.bad_sectors + 1)) := by
  by_cases h1 : st.aborted
  · left
    simp [scanStep, h1]
  · by_cases h2 : st.scanned < total
    · right
      refine ⟨h2, ?_, ?_⟩ <;>
        · simp only [scanStep, send_progress_update, h1, h2]
          cases hw : (writeAll clients).2 <;> cases hr : reads st.scanned <;>
            simp [hw, hr]
    · left
      simp [scanStep, h1, h2]

theorem scanRun_inv (reads : ℕ → Bool) (clients : List Client) (drive : String)
    (total : ℕ) : ∀ k : ℕ,
    sector_size ∣ (scanRun reads clients drive total k).scanned
    ∧ (scanRun reads clients drive total k).bad_sectors * sector_size
        ≤ (scanRun reads clients drive total k).scanned
    ∧ (sector_size ∣ total → (scanRun reads clients drive total k).scanned ≤ total)
  | 0 => by simp [scanRun]
  | k+1 => by
    obtain ⟨hdvd, hbad, hle⟩ := scanRun_inv reads clients drive total k
    have hstep := scanStep_cases reads clients drive total (scanRun reads clients drive total k)
    have hrun : scanRun reads clients drive total (k + 1)
        = scanStep reads clients drive total (scanRun reads clients drive total k) := rfl
    rcases hstep with heq | ⟨hlt, hsc, hbadc⟩
    · rw [hrun, heq]
      exact ⟨hdvd, hbad, hle⟩
    · rw [hrun]
      refine ⟨?_, ?_, ?_⟩
      · rw [hsc]
        exact hdvd.add (dvd_refl sector_size)
      · rw [hsc]
        rcases hbadc with hb | hb <;> rw [hb] <;>
          · unfold sector_size at hbad ⊢
            omega
      · intro ht
        obtain ⟨u, hu⟩ := hdvd
        obtain ⟨v, hv⟩ := ht
        rw [hsc]
        unfold sector_size at hu hv ⊢
        omega

theorem scanStep_bad_le (reads : ℕ → Bool) (clients : List Client) (drive : String)
    (total : ℕ) (st : ScanState) :
    st.bad_sectors ≤ (scanStep reads clients drive total st).bad_sectors := by
  rcases scanStep_cases reads clients drive total st with heq | ⟨_, _, hb | hb⟩
  · rw [heq]
  · rw [hb]
  · rw [hb]
    omega

theorem scanRun_msgs_events (reads : ℕ → Bool) (clients : List Client) (drive : String)
    (total : ℕ) : ∀ k : ℕ,
    ∀ m ∈ (scanRun reads clients drive total k).msgs, m.event = "scan_progress"
  | 0 => by simp [scanRun]
  | k+1 => by
    intro m hm
    have ih := scanRun_msgs_events reads clients drive total k
    have hrun : scanRun reads clients drive total (k + 1)
        = scanStep reads clients drive total (scanRun reads clients drive total k) := rfl
    rw [hrun] at hm
    revert hm
    simp only [scanStep, send_progress_update]
    split_ifs <;> intro hm <;>
      first
        | exact ih m hm
        | (rcases List.mem_append.mp hm with h | h
           · exact ih m h
           · rw [List.mem_singleton.mp h])

theorem wsRun_replicate (code : ℕ) (hcode : code ≠ 1000) :
    ∀ (k n : ℕ), n ≤ maxReconnectAttempts →
      (wsRun n (List.replicate k (WsEvent.wsclose code))).2
        = min k (maxReconnectAttempts - n)
  | 0, n, hn => by simp [wsRun]
  | k+1, n, hn => by
    rw [List.replicate_succ]
    by_cases hlt : n < maxReconnectAttempts
    · have hstep : wsHandle n (WsEvent.wsclose code) = (n + 1, true) := by
        simp [wsHandle, hcode, hlt]
      have ih := wsRun_replicate code hcode k (n + 1) (by omega)
      have hsplit : (wsRun n (WsEvent.wsclose code :: List.replicate k (WsEvent.wsclose code))).2
          = 1 + (wsRun (n + 1) (List.replicate k (WsEvent.wsclose code))).2 := by
        simp [wsRun, hstep]
      rw [hsplit, ih]
      unfold maxReconnectAttempts at *
      omega
    · have hstep : wsHandle n (WsEvent.wsclose code) = (n, false) := by
        simp [wsHandle, hlt]
      have ih := wsRun_replicate code hcode k n hn
      have hsplit : (wsRun n (WsEvent.wsclose code :: List.replicate k (WsEvent.wsclose code))).2
          = (wsRun n (List.replicate k (WsEvent.wsclose code))).2 := by
        simp [wsRun, hstep]
      rw [hsplit, ih]
      unfold maxReconnectAttempts at *
      omega

/- ### Claims -/

/-- Claim C1 counterexample: two successive startScan requests for the same
drive are both accepted and both run a complete scan; no request is rejected,
so it is false that exactly one of the two is accepted. -/
theorem C1_counterexample :
    (handleRequests readsAllOk [] true (10 * sector_size) ["sda", "sda"]).length = 2
    ∧ (∀ r ∈ handleRequests readsAllOk [] true (10 * sector_size) ["sda", "sda"],
        r.success = true)
    ∧ ¬((handleRequests readsAllOk [] true (10 * sector_size) ["sda", "sda"]).countP
          (fun r => r.success) = 1) := by
  refine ⟨by decide, by decide, by decide⟩

/-- Claim C1 (amended): the backend keeps no scan registry: every
POST /scan/{drive} request unconditionally runs a full scan of the device,
so N requests for the same drive yield N accepted completed-scan responses
and zero AlreadyRunning rejections. -/
theorem C1_no_registry_every_request_scans (reads : ℕ → Bool) (clients : List Client)
    (total : ℕ) (reqs : List String) (halive : aliveAll clients) :
    (handleRequests reads clients true total reqs).length = reqs.length
    ∧ ∀ r ∈ handleRequests reads clients true total reqs, r.success = true := by
  constructor
  · simp [handleRequests]
  · intro r hr
    simp only [handleRequests, List.mem_map] at hr
    obtain ⟨d, _, rfl⟩ := hr
    show (scan_drive reads clients d total true).success = true
    rw [scan_drive_alive reads clients d total halive]

/-- Claim C1 witness: the amended statement at a concrete input. -/
theorem C1_witness :
    (handleRequests readsAllOk [] true (10 * sector_size) ["sda", "sda"]).length = 2
    ∧ ∀ r ∈ handleRequests readsAllOk [] true (10 * sector_size) ["sda", "sda"],
        r.success = true := by
  have h := C1_no_registry_every_request_scans readsAllOk [] (10 * sector_size)
    ["sda", "sda"] (by simp [aliveAll])
  exact ⟨h.1, h.2⟩

/-- Claim C2: a per-unit read failure never aborts the scan: the loop always
runs to completion with the full device scanned and each failed unit counted
once; in the 10-unit scenario where exactly units 4 and 7 fail, the session
ends successfully with 10 units scanned, bad_sectors = 2, and a final
reported percent of exactly 100. -/
theorem C2_read_failures_counted_never_abort (reads : ℕ → Bool) (clients : List Client)
    (drive : String) (total : ℕ) (halive : aliveAll clients) :
    ((scan_drive reads clients drive total true).success = true
      ∧ (scan_drive reads clients drive total true).scanned = numIters total * sector_size
      ∧ (scan_drive reads clients drive total true).bad_sectors
          = badCount reads (numIters total))
    ∧ ((scan_drive readsBad47 [] "sda" (10 * sector_size) true).success = true
      ∧ (scan_drive readsBad47 [] "sda" (10 * sector_size) true).scanned = 10 * sector_size
      ∧ (scan_drive readsBad47 [] "sda" (10 * sector_size) true).bad_sectors = 2
      ∧ ((scan_drive readsBad47 [] "sda" (10 * sector_size) true).msgs.map
            Message.progress).getLast? = some 100) := by
  constructor
  · rw [scan_drive_alive reads clients drive total halive]
    exact ⟨rfl, rfl, rfl⟩
  · refine ⟨by decide, by decide, by decide, by decide⟩

/-- Claim C2 witness: the general part at a concrete input. -/
theorem C2_witness :
    (scan_drive readsBad47 [] "sda" (10 * sector_size) true).success = true
    ∧ (scan_drive readsBad47 [] "sda" (10 * sector_size) true).scanned
        = numIters (10 * sector_size) * sector_size := by
  have h := C2_read_failures_counted_never_abort readsBad47 [] "sda" (10 * sector_size)
    (by simp [aliveAll])
  exact ⟨h.1.1, h.1.2.1⟩

/-- Claim C3 counterexample: a session that runs to completion publishes zero
scan_complete messages, not exactly one: the backend never broadcasts any
completion event. -/
theorem C3_counterexample :
    (scan_drive readsAllOk [] "sda" (10 * sector_size) true).success = true
    ∧ (scan_drive readsAllOk [] "sda" (10 * sector_size) true).msgs.countP
        (fun m => m.event == "scan_complete") = 0
    ∧ ¬((scan_drive readsAllOk [] "sda" (10 * sector_size) true).msgs.countP
        (fun m => m.event == "scan_complete") = 1) := by
  refine ⟨by decide, by decide, by decide⟩

/-- Claim C3 (amended): no CompletionEvent is ever published: every message a
scan session broadcasts is a scan_progress message, so the count of
scan_complete messages is zero for every session; the terminal outcome is
returned only in the HTTP response body of the startScan request. -/
theorem C3_no_completion_event (reads : ℕ → Bool) (clients : List Client)
    (drive : String) (total : ℕ) (openOk : Bool) :
    (∀ m ∈ (scan_drive reads clients drive total openOk).msgs,
      m.event = "scan_progress")
    ∧ (scan_drive reads clients drive total openOk).msgs.countP
        (fun m => m.event == "scan_complete") = 0 := by
  have hall : ∀ m ∈ (scan_drive reads clients drive total openOk).msgs,
      m.event = "scan_progress" := by
    intro m hm
    unfold scan_drive at hm
    split_ifs at hm with h
    · exact scanRun_msgs_events reads clients drive total (numIters total) m hm
    · simp at hm
  refine ⟨hall, ?_⟩
  rw [List.countP_eq_zero]
  intro m hm
  have := hall m hm
  simp [this]

/-- Claim C3 witness: the amended statement at a concrete input. -/
theorem C3_witness :
    (∀ m ∈ (scan_drive readsBad47 [] "sda" (10 * sector_size) true).msgs,
      m.event = "scan_progress")
    ∧ (scan_drive readsBad47 [] "sda" (10 * sector_size) true).msgs.countP
        (fun m => m.event == "scan_complete") = 0 :=
  C3_no_completion_event readsBad47 [] "sda" (10 * sector_size) true

/-- Claim C4 counterexample: the response of ScanHandler.post is the terminal
result of the whole scan: for the device where units 4 and 7 are unreadable
the response already carries bad_sectors = 2, and it differs from the
response for a healthy device, so the handler does not return an immediate
outcome-independent accepted/rejected signal. -/
theorem C4_counterexample :
    ScanHandler_post readsBad47 [] true "sda" (10 * sector_size)
        = scan_drive readsBad47 [] "sda" (10 * sector_size) true
    ∧ (ScanHandler_post readsBad47 [] true "sda" (10 * sector_size)).bad_sectors = 2
    ∧ ¬(ScanHandler_post readsBad47 [] true "sda" (10 * sector_size)
        = ScanHandler_post readsAllOk [] true "sda" (10 * sector_size)) := by
  refine ⟨rfl, by decide, by decide⟩

/-- Claim C4 (amended): ScanHandler.post awaits scan_drive and only then
responds: its response equals scan_drive's terminal result, and for a
healthy run it reports success together with the final bad-sector count of
the fully executed scan, not an immediate accepted/rejected signal. -/
theorem C4_response_is_terminal_result (reads : ℕ → Bool) (clients : List Client)
    (openOk : Bool) (drive : String) (total : ℕ) (halive : aliveAll clients) :
    ScanHandler_post reads clients openOk drive total
        = scan_drive reads clients drive total openOk
    ∧ (openOk = true →
        (ScanHandler_post reads clients openOk drive total).success = true
        ∧ (ScanHandler_post reads clients openOk drive total).bad_sectors
            = badCount reads (numIters total)) := by
  refine ⟨rfl, ?_⟩
  rintro rfl
  constructor
  · show (scan_drive reads clients drive total true).success = true
    rw [scan_drive_alive reads clients drive total halive]
  · show (scan_drive reads clients drive total true).bad_sectors
        = badCount reads (numIters total)
    rw [scan_drive_alive reads clients drive total halive]

/-- Claim C4 witness: the amended statement at a concrete input. -/
theorem C4_witness :
    ScanHandler_post readsBad47 [] true "sda" (10 * sector_size)
        = scan_drive readsBad47 [] "sda" (10 * sector_size) true
    ∧ (ScanHandler_post readsBad47 [] true "sda" (10 * sector_size)).bad_sectors
        = badCount readsBad47 (numIters (10 * sector_size)) := by
  have h := C4_response_is_terminal_result readsBad47 [] true "sda" (10 * sector_size)
    (by simp [aliveAll])
  exact ⟨h.1, (h.2 rfl).2⟩

/-- Claim C5 counterexample: on a 1000-byte device the loop overshoots: after
the final iteration the scanned counter is 1024, strictly greater than
total_size = 1000, so scanned ≤ total does not hold throughout every
session. -/
theorem C5_counterexample :
    (scan_drive readsAllOk [] "sda" 1000 true).scanned = 1024
    ∧ ¬((scan_drive readsAllOk [] "sda" 1000 true).scanned ≤ 1000) := by
  refine ⟨by decide, by decide⟩

/-- Claim C5 (amended): after every loop iteration of every session the
counters satisfy bad_sectors * sector_size ≤ scanned (i.e. badUnits ≤
scannedUnits) and bad_sectors is non-decreasing from one iteration to the
next, both unconditionally; the bound scanned ≤ total_size holds provided
sector_size divides total_size (when it does not, the last iteration
overshoots total_size). -/
theorem C5_loop_invariants (reads : ℕ → Bool) (clients : List Client) (drive : String)
    (total k : ℕ) :
    (scanRun reads clients drive total k).bad_sectors * sector_size
        ≤ (scanRun reads clients drive total k).scanned
    ∧ (sector_size ∣ total → (scanRun reads clients drive total k).scanned ≤ total)
    ∧ (scanRun reads clients drive total k).bad_sectors
        ≤ (scanRun reads clients drive total (k + 1)).bad_sectors := by
  obtain ⟨_, h2, h3⟩ := scanRun_inv reads clients drive total k
  exact ⟨h2, h3, scanStep_bad_le reads clients drive total _⟩

/-- Claim C5 witness: the amended statement at a concrete input, with the
divisibility premise of the middle conjunct discharged there. -/
theorem C5_witness :
    (scanRun readsBad47 [] "sda" (10 * sector_size) 5).bad_sectors * sector_size
        ≤ (scanRun readsBad47 [] "sda" (10 * sector_size) 5).scanned
    ∧ (scanRun readsBad47 [] "sda" (10 * sector_size) 5).scanned ≤ 10 * sector_size
    ∧ (scanRun readsBad47 [] "sda" (10 * sector_size) 5).bad_sectors
        ≤ (scanRun readsBad47 [] "sda" (10 * sector_size) 6).bad_sectors := by
  have h := C5_loop_invariants readsBad47 [] "sda" (10 * sector_size) 5
  exact ⟨h.1, h.2.1 ⟨10, by ring⟩, h.2.2⟩

set_option maxRecDepth 200000 in
/-- Claim C6 counterexample: progress values are neither floor-division
results nor confined to 0..100: on a 1000-byte device the two published
events carry progress 51 and 102 (the final one exceeds 100 and is not 100),
and on a 100-unit device the event after 29 units carries progress 28 while
integer floor division gives 29 * 100 / 100 = 29, because Python computes
int((scanned / total) * 100) in binary64 and float(29/100) * 100 rounds to
28.999999999999996. -/
theorem C6_counterexample :
    ((scan_drive readsAllOk [] "sda" 1000 true).msgs.map Message.progress) = [51, 102]
    ∧ ¬((102 : ℕ) ≤ 100)
    ∧ ((scan_drive readsAllOk [] "sda" (100 * sector_size) true).msgs.map
          Message.progress)[28]? = some 28
    ∧ 29 * 100 / 100 = 29 := by
  refine ⟨by decide, by decide, by decide, rfl⟩

/-- Claim C6 (amended): every published progress value is
int((scanned / total) * 100) computed in binary64 (which can differ from
integer floor division by one); when sector_size divides total_size every
published progress lies in 0..100 (0 ≤ holds trivially since the value is a
natural number) and the final event before completion reports exactly 100. -/
theorem C6_progress_range_and_final (reads : ℕ → Bool) (clients : List Client)
    (drive : String) (total : ℕ) (halive : aliveAll clients)
    (hdvd : sector_size ∣ total) (hpos : 0 < total) :
    (∀ m ∈ (scan_drive reads clients drive total true).msgs, m.progress ≤ 100)
    ∧ ((scan_drive reads clients drive total true).msgs.map Message.progress).getLast?
        = some 100 := by
  rw [scan_drive_alive reads clients drive total halive]
  have hn : 1 ≤ numIters total := by
    have := (lt_numIters 0 total).mpr (by omega)
    omega
  constructor
  · intro m hm
    simp only [msgTrace, List.mem_map, List.mem_range] at hm
    obtain ⟨j, hj, rfl⟩ := hm
    show pyProgress ((j + 1) * sector_size) total ≤ 100
    apply pyProgress_le_100
    · unfold sector_size
      omega
    · have hj' : j + 1 ≤ numIters total := hj
      calc (j + 1) * sector_size
          ≤ numIters total * sector_size := Nat.mul_le_mul_right _ hj'
        _ = total := numIters_mul_of_dvd total hdvd
  · obtain ⟨w, hw⟩ : ∃ w, numIters total = w + 1 := ⟨numIters total - 1, by omega⟩
    show ((msgTrace reads drive total (numIters total)).map Message.progress).getLast?
        = some 100
    rw [hw, msgTrace_succ, List.map_append]
    have hsing : ([(⟨"scan_progress", drive, pyProgress ((w + 1) * sector_size) total,
        badCount reads (w + 1)⟩ : Message)].map Message.progress)
        = [pyProgress ((w + 1) * sector_size) total] := rfl
    rw [hsing, List.getLast?_concat]
    have htot : (w + 1) * sector_size = total := by
      rw [← hw]
      exact numIters_mul_of_dvd total hdvd
    rw [htot, pyProgress_self total hpos]

/-- Claim C6 witness: the amended statement at a concrete input. -/
theorem C6_witness :
    (∀ m ∈ (scan_drive readsBad47 [] "sda" (10 * sector_size) true).msgs,
      m.progress ≤ 100)
    ∧ ((scan_drive readsBad47 [] "sda" (10 * sector_size) true).msgs.map
        Message.progress).getLast? = some 100 :=
  C6_progress_range_and_final readsBad47 [] "sda" (10 * sector_size)
    (by simp [aliveAll]) ⟨10, by ring⟩ (by decide)

set_option maxRecDepth 200000 in
/-- Claim C7 counterexample: a 1000-unit device receives exactly 1000
progress events, one per scanned unit, so the loop does publish one event
per single unit on a large device instead of a bounded cadence. -/
theorem C7_counterexample :
    (scan_drive readsAllOk [] "sda" (1000 * sector_size) true).msgs.length = 1000
    ∧ numIters (1000 * sector_size) = 1000
    ∧ ¬((scan_drive readsAllOk [] "sda" (1000 * sector_size) true).msgs.length < 1000) := by
  have hn : numIters (1000 * sector_size) = 1000 := by
    unfold numIters sector_size
    norm_num
  have h := scan_drive_alive readsAllOk [] "sda" (1000 * sector_size) (by simp [aliveAll])
  have hlen : (scan_drive readsAllOk [] "sda" (1000 * sector_size) true).msgs.length = 1000 := by
    rw [h]
    show (msgTrace readsAllOk "sda" (1000 * sector_size)
      (numIters (1000 * sector_size))).length = 1000
    simp [msgTrace, hn]
  exact ⟨hlen, hn, by omega⟩

/-- Claim C7 (amended): the scan publishes a ProgressEvent on every single
iteration: for every session with live subscribers the number of broadcast
messages equals the number of scanned units, ceil(total_size / sector_size);
there is no batching or bounded cadence. -/
theorem C7_one_event_per_unit (reads : ℕ → Bool) (clients : List Client)
    (drive : String) (total : ℕ) (halive : aliveAll clients) :
    (scan_drive reads clients drive total true).msgs.length = numIters total := by
  rw [scan_drive_alive reads clients drive total halive]
  show (msgTrace reads drive total (numIters total)).length = numIters total
  simp [msgTrace]

/-- Claim C7 witness: the amended statement at a concrete input. -/
theorem C7_witness :
    (scan_drive readsBad47 [] "sda" (10 * sector_size) true).msgs.length
      = numIters (10 * sector_size) :=
  C7_one_event_per_unit readsBad47 [] "sda" (10 * sector_size) (by simp [aliveAll])

/-- Claim C8 counterexample: with a dead first subscriber and a live second
one, the broadcast raises at the dead client before reaching the live one
(zero deliveries), and the exception propagates into the scan loop: the
session ends with success = false and no event was fully broadcast. -/
theorem C8_counterexample :
    writeAll [⟨false⟩, ⟨true⟩] = (0, false)
    ∧ (scan_drive readsAllOk [⟨false⟩, ⟨true⟩] "sda" (10 * sector_size) true).success = false
    ∧ (scan_drive readsAllOk [⟨false⟩, ⟨true⟩] "sda" (10 * sector_size) true).msgs = [] := by
  refine ⟨by decide, by decide, by decide⟩

/-- Claim C8 (amended): the broadcast loop iterates over the subscriber set
in order and write_message raises at the first dead subscriber, so
subscribers after it receive nothing and the exception propagates into the
scan loop, which catches it in its outer try and ends the session with
success = false; publishing with zero subscribers is a silent no-op. -/
theorem C8_delivery_failure_propagates (reads : ℕ → Bool) (pre post : List Client)
    (c : Client) (drive : String) (total : ℕ)
    (hpre : aliveAll pre) (hc : c.alive = false) (htot : 0 < total) :
    writeAll (pre ++ c :: post) = (pre.length, false)
    ∧ writeAll [] = (0, true)
    ∧ (scan_drive reads (pre ++ c :: post) drive total true).success = false :=
  ⟨writeAll_dead pre post c hpre hc, rfl,
    (scan_drive_dead_client reads pre post c drive total hpre hc htot).1⟩

/-- Claim C8 witness: the amended statement at a concrete input. -/
theorem C8_witness :
    writeAll ([⟨true⟩] ++ (⟨false⟩ : Client) :: [⟨true⟩]) = ([(⟨true⟩ : Client)].length, false)
    ∧ writeAll [] = (0, true)
    ∧ (scan_drive readsAllOk ([⟨true⟩] ++ (⟨false⟩ : Client) :: [⟨true⟩]) "sda"
        (10 * sector_size) true).success = false :=
  C8_delivery_failure_propagates readsAllOk [⟨true⟩] [⟨true⟩] ⟨false⟩ "sda"
    (10 * sector_size) (by simp [aliveAll]) rfl (by decide)

/-- Claim C9: with maxReconnectAttempts = 10, a run of abnormal closes (any
close code other than 1000, each reconnect attempt failing abnormally again)
schedules exactly 10 reconnect attempts and then stops; a normal closure
(code 1000) never schedules a reconnect, from any state. -/
theorem C9_reconnect_policy (code k : ℕ) (hcode : code ≠ 1000)
    (hk : maxReconnectAttempts ≤ k) :
    (wsRun 0 (List.replicate k (WsEvent.wsclose code))).2 = 10
    ∧ (wsRun 0 [WsEvent.wsclose 1000]).2 = 0
    ∧ (∀ n : ℕ, (wsHandle n (WsEvent.wsclose 1000)).2 = false) := by
  refine ⟨?_, by decide, ?_⟩
  · rw [wsRun_replicate code hcode k 0 (by omega)]
    unfold maxReconnectAttempts at *
    omega
  · intro n
    simp [wsHandle]

/-- Claim C9 witness: the statement at a concrete input. -/
theorem C9_witness :
    (wsRun 0 (List.replicate 12 (WsEvent.wsclose 1006))).2 = 10
    ∧ (wsRun 0 [WsEvent.wsclose 1000]).2 = 0 := by
  have h := C9_reconnect_policy 1006 12 (by decide) (by decide)
  exact ⟨h.1, h.2.1⟩

/-- Claim C10: the client-side startScan always resolves and never rejects:
on HTTP success it resolves with the response body, on any error it resolves
with the error object "Scan initiation failed"; consequently the Dashboard
then-handler always runs and marks the drive "Starting..." even when scan
initiation failed. -/
theorem C10_startScan_always_resolves (o : Except String String)
    (statuses : String → String) (drive : String) :
    (∃ v, startScan o = Settled.resolved v)
    ∧ (∀ b, o = Except.ok b → startScan o = Settled.resolved (ApiValue.body b))
    ∧ (∀ e, o = Except.error e →
        startScan o = Settled.resolved (ApiValue.errObj "Scan initiation failed"))
    ∧ handleStartScan o statuses drive drive = "Starting..." := by
  refine ⟨?_, ?_, ?_, ?_⟩
  · cases o with
    | ok b => exact ⟨ApiValue.body b, rfl⟩
    | error e => exact ⟨ApiValue.errObj "Scan initiation failed", rfl⟩
  · rintro b rfl
    rfl
  · rintro e rfl
    rfl
  · cases o <;> simp [handleStartScan, startScan, Function.update_same]

/-- Claim C10 witness: the statement at a concrete input. -/
theorem C10_witness :
    startScan (Except.error "ECONNREFUSED")
        = Settled.resolved (ApiValue.errObj "Scan initiation failed")
    ∧ handleStartScan (Except.error "ECONNREFUSED") (fun _ => "Idle") "sda" "sda"
        = "Starting..." := by
  have h := C10_startScan_always_resolves (Except.error "ECONNREFUSED")
    (fun _ => "Idle") "sda"
  exact ⟨h.2.2.1 "ECONNREFUSED" rfl, h.2.2.2⟩
